import Mathlib

/-!
# Verification of the snapshot-download cache resolver and safetensors metadata model

Shallow embedding of `src/huggingface_hub/snapshot_download.py` and
`src/huggingface_hub/utils/_safetensors.py`, together with theorems settling
the specification claims about them.

Strings are modelled by Lean `String` (a wrapper around `List Char`); most
string processing is done on the underlying character lists.  The filesystem
is modelled as an association list from paths to file contents (`Nat`), and
`os.path.join a b` (POSIX, relative second component) as `a ++ "/" ++ b`.
-/

set_option autoImplicit false

namespace HFHub

/-! ## Repo-id flattening (snapshot_download.py lines 12, 67-68)

`REPO_ID_SEPARATOR = "__"` and
`repo_id_flattened = repo_id.replace("/", REPO_ID_SEPARATOR)`.
`replaceSlash` embeds Python `str.replace("/", "__")` on character lists:
every `'/'` becomes `'_' '_'`.  `replaceSepBack` embeds the reverse
substitution `str.replace("__", "/")`, which in Python scans left to right
replacing non-overlapping occurrences greedily.
-/

def REPO_ID_SEPARATOR : String := "__"

def replaceSlash : List Char → List Char
  | [] => []
  | c :: rest => if c = '/' then '_' :: '_' :: replaceSlash rest else c :: replaceSlash rest

def replaceSepBack : List Char → List Char
  | [] => []
  | [c] => [c]
  | a :: b :: rest =>
    if a = '_' ∧ b = '_' then '/' :: replaceSepBack rest
    else a :: replaceSepBack (b :: rest)

def flattenRepoId (s : String) : String := ⟨replaceSlash s.data⟩

/-- Decides whether `pat` occurs as a contiguous substring of the second list. -/
def hasSubstr (pat : List Char) : List Char → Bool
  | [] => pat.isEmpty
  | c :: cs => pat.isPrefixOf (c :: cs) || hasSubstr pat cs

/-- Adjacent character pairs that make the flattening ambiguous:
`'_','_'` (a literal occurrence of the separator) and `'_','/'` (an
underscore fusing with the front of the substituted separator).  A `'/','_'`
pair is harmless: the greedy left-to-right re-substitution of `"__"` consumes
the separator's underscores before reaching the following one. -/
def goodAdj (a b : Char) : Bool :=
  !(a == '_' && b == '_') && !(a == '_' && b == '/')

/-- A repo id is unambiguous for flattening when no adjacent pair of its
characters is one of the bad pairs of `goodAdj`. -/
def goodRepo : List Char → Bool
  | [] => true
  | [_] => true
  | a :: b :: rest => goodAdj a b && goodRepo (b :: rest)

/-! ## Glob matching (Python `glob.glob` as used in snapshot_download.py lines 80-107)

The source builds glob patterns by concatenating the cache prefix, literal
dots, the revision string and `*` wildcards, and matches them against the
names of existing cache directories.  `globMatch pat s` embeds the matching
of one path component: `'*'` matches any (possibly empty) sequence of
characters, every other character matches itself.  The other `fnmatch`
metacharacters (`?`, `[`) are not modelled; the theorems about the offline
search therefore assume they do not occur in the cache prefix or revision.
-/

def globMatchAux : Nat → List Char → List Char → Bool
  | 0, _, _ => false
  | _ + 1, [], [] => true
  | _ + 1, [], _ :: _ => false
  | fuel + 1, '*' :: ps, [] => globMatchAux fuel ps []
  | fuel + 1, '*' :: ps, c :: cs =>
    globMatchAux fuel ps (c :: cs) || globMatchAux fuel ('*' :: ps) cs
  | _ + 1, _ :: _, [] => false
  | fuel + 1, p :: ps, c :: cs => (p == c) && globMatchAux fuel ps cs

/-- The fuel `p.length + s.length + 1` dominates the recursion depth, so
`globMatchAux` never hits its out-of-fuel clause (see
`globMatchAux_fuel_irrel`). -/
def globMatch (p s : List Char) : Bool := globMatchAux (p.length + s.length + 1) p s

/-- A pattern (or fragment of one) containing no `'*'` wildcard. -/
def noStar (l : List Char) : Prop := ∀ c ∈ l, c ≠ '*'

/-- A string fragment containing none of the glob metacharacters `*`, `?`, `[`
(only `*` is given meaning by `globMatch`; the theorems assume the others are
absent so that the embedding agrees with Python `glob`). -/
def noMeta (l : List Char) : Prop := ∀ c ∈ l, c ≠ '*' ∧ c ≠ '?' ∧ c ≠ '['

/-! ## Cache model and offline resolution (snapshot_download.py lines 72-126)

A cache directory listing is modelled as a list of entries, one per existing
directory entry directly under the cache root: the entry's base name and its
modification time.  `glob(os.path.join(cache_dir, pattern))` then returns the
cache-root-prefixed names of the listed entries whose base name matches
`pattern` — directory entry names contain no `/`, so matching happens on base
names.
-/

structure CacheEntry where
  name : String
  mtime : Nat
deriving DecidableEq, Repr

def pathJoin (a b : String) : String := a ++ "/" ++ b

def globFilter (pat : String) (listing : List CacheEntry) : List CacheEntry :=
  listing.filter (fun e => globMatch pat.data e.name.data)

/-- Line 80: `glob(repo_folders_prefix + "." + revision + ".*")`. -/
def repoFoldersBranch (listing : List CacheEntry) (flat rev : String) : List CacheEntry :=
  globFilter (flat ++ "." ++ rev ++ ".*") listing

/-- Line 84: `glob(repo_folders_prefix + "." + revision)`. -/
def repoFoldersCommitOnly (listing : List CacheEntry) (flat rev : String) : List CacheEntry :=
  globFilter (flat ++ "." ++ rev) listing

/-- Line 88: `glob(repo_folders_prefix + ".*." + revision)`. -/
def repoFoldersBranchCommit (listing : List CacheEntry) (flat rev : String) : List CacheEntry :=
  globFilter (flat ++ ".*." ++ rev) listing

/-- Lines 91-93: concatenation of the three candidate lists. -/
def repoFolders (listing : List CacheEntry) (flat rev : String) : List CacheEntry :=
  repoFoldersBranch listing flat rev ++ repoFoldersCommitOnly listing flat rev
    ++ repoFoldersBranchCommit listing flat rev

/-- Lines 106-108: `set(glob(prefix + ".*")) - set(glob(prefix + ".*.*"))` —
entries matching the one-star pattern but not the two-star pattern. -/
def repoFoldersCommitAny (listing : List CacheEntry) (flat : String) : List CacheEntry :=
  listing.filter (fun e =>
    globMatch (flat ++ ".*").data e.name.data
      && !globMatch (flat ++ ".*.*").data e.name.data)

/-- Lines 109-112: the condition under which the staleness warning is logged. -/
def warnEmitted (listing : List CacheEntry) (flat rev : String) : Bool :=
  !(repoFoldersCommitAny listing flat).isEmpty
    && (repoFoldersCommitOnly listing flat rev ++ repoFoldersBranchCommit listing flat rev).isEmpty

/-- Line 122: `max(repo_folders, key=os.path.getmtime)` — Python `max` returns
the first element attaining the maximal key. -/
def maxByMtime : List CacheEntry → Option CacheEntry
  | [] => none
  | e :: es => some (es.foldl (fun acc x => if acc.mtime < x.mtime then x else acc) e)

/-- Offline branch of `snapshot_download` (lines 72-126 plus the final
`return storage_folder`): search the cache listing for candidate folders,
fail if none exists, otherwise return the path of the most recently modified
one.  In offline mode the subsequent per-file loop runs `cached_download`
with `local_files_only=True` over files already inside the chosen folder and
does not change `storage_folder`, so the chosen path is the returned path. -/
def snapshot_download_offline (listing : List CacheEntry) (cache_dir repo_id revision : String) :
    Except String String :=
  let flat := flattenRepoId repo_id
  match maxByMtime (repoFolders listing flat revision) with
  | none => .error "Cannot find the requested files in the cached path and outgoing traffic has been disabled."
  | some e => .ok (pathJoin cache_dir e.name)

/-! ## Online resolution and the fetch loop (snapshot_download.py lines 127-171) -/

/-- The result of `HfApi().model_info(...)`: the resolved commit sha and the
relative file names (`rfilename`) of the repo's files at that revision. -/
structure ModelInfo where
  sha : String
  siblings : List String
deriving Repr, DecidableEq

/-- Lines 132-139: `storage_folder = os.path.join(cache_dir, repo_id_flattened
+ "." + revision)`, extended with `"." + model_info.sha` when
`revision != model_info.sha`. -/
def storageFolderOnline (cache_dir repo_id revision sha : String) : String :=
  let storage_folder := pathJoin cache_dir (flattenRepoId repo_id ++ "." ++ revision)
  if revision ≠ sha then storage_folder ++ "." ++ sha else storage_folder

/-- Filesystem model: an association list from absolute paths to file
contents (contents abstracted as `Nat`). -/
abbrev FS : Type := List (String × Nat)

def fsLookup : FS → String → Option Nat
  | [], _ => none
  | (k, v) :: rest, p => if k = p then some v else fsLookup rest p

def fsExists (fs : FS) (p : String) : Bool := (fsLookup fs p).isSome

def fsRemove : FS → String → FS
  | [], _ => []
  | (k, v) :: rest, p => if k = p then fsRemove rest p else (k, v) :: fsRemove rest p

def fsSet (fs : FS) (p : String) (v : Nat) : FS := (p, v) :: fsRemove fs p

/-- Modelled from the spec: the external single-file downloader
`cached_download` (owned by `file_download.py`, which is not part of this
excerpt).  Contract per §6/§8 of the spec: idempotent, creates the
destination `os.path.join(cache_dir, force_filename)` if missing and performs
no fetch for a file already present; returns the destination path.  The
`Bool` in the result records whether a network fetch occurred.  `remote`
gives the remote content of each path. -/
def cached_download (fs : FS) (remote : String → Nat) (cache_dir force_filename : String) :
    FS × String × Bool :=
  if fsExists fs (pathJoin cache_dir force_filename) then
    (fs, pathJoin cache_dir force_filename, false)
  else
    (fsSet fs (pathJoin cache_dir force_filename) (remote (pathJoin cache_dir force_filename)),
      pathJoin cache_dir force_filename, true)

/-- Python `os.remove` (standard library semantics): deletes the path,
raising `FileNotFoundError` when it does not exist. -/
def os_remove (fs : FS) (p : String) : Except String FS :=
  if fsExists fs p then .ok (fsRemove fs p) else .error "FileNotFoundError"

/-- Lines 168-169 as a pure state transformer:
`if os.path.exists(path + ".lock"): os.remove(path + ".lock")`. -/
def removeLockIfExists (fs : FS) (path : String) : FS :=
  if fsExists fs (path ++ ".lock") then fsRemove fs (path ++ ".lock") else fs

/-- Lines 168-169 with `os.remove`'s failure propagated, to express that the
guard makes the cleanup total. -/
def lockCleanup (fs : FS) (path : String) : Except String FS :=
  if fsExists fs (path ++ ".lock") then os_remove fs (path ++ ".lock") else .ok fs

/-- Lines 144-169: the per-file loop.  For each remote file name, invoke the
downloader with the storage folder as cache dir and the file's relative path
as forced filename, then clean up the `.lock` artifact next to the returned
path.  (`os.path.join(*model_file.split("/"))` is the identity on normal
relative paths and is modelled as such; `os.makedirs` only affects
directories, which the filesystem model does not track.)  The `Nat` result
counts the network fetches performed. -/
def fetchLoop (remote : String → Nat) (storage_folder : String) :
    FS → List String → FS × Nat
  | fs, [] => (fs, 0)
  | fs, model_file :: rest =>
    let r := cached_download fs remote storage_folder model_file
    let fs2 := removeLockIfExists r.1 r.2.1
    let out := fetchLoop remote storage_folder fs2 rest
    (out.1, (if r.2.2 then 1 else 0) + out.2)

/-- Online branch of `snapshot_download` (lines 127-171): compute the storage
folder from the resolved sha, run the fetch loop over the repo's files, and
return the storage folder (plus the final filesystem and fetch count of the
loop). -/
def snapshot_download_online (fs : FS) (remote : String → Nat)
    (cache_dir repo_id revision : String) (model_info : ModelInfo) : String × FS × Nat :=
  let storage_folder := storageFolderOnline cache_dir repo_id revision model_info.sha
  let out := fetchLoop remote storage_folder fs model_info.siblings
  (storage_folder, out.1, out.2)

/-! ## Safetensors metadata (utils/_safetensors.py) -/

/-- Embeds `TensorInfo` (utils/_safetensors.py lines 23-40): dtype, shape and the
`[BEGIN, END]` byte range of one tensor. -/
structure TensorInfo where
  dtype : String
  shape : List Nat
  data_offsets : Nat × Nat
deriving DecidableEq, Repr

/-- Embeds `SafetensorsFileMetadata` (lines 43-60): the free-form metadata map and
the tensor map of one safetensors file (maps as association lists). -/
structure SafetensorsFileMetadata where
  metadata : List (String × String)
  tensors : List (String × TensorInfo)
deriving DecidableEq, Repr

/-- Embeds `SafetensorsRepoMetadata` (lines 63-90). -/
structure SafetensorsRepoMetadata where
  metadata : Option (List (String × String))
  sharded : Bool
  weight_map : List (String × String)
  files_metadata : List (String × SafetensorsFileMetadata)
deriving DecidableEq, Repr

def lookupFile (files : List (String × SafetensorsFileMetadata)) (name : String) :
    Option SafetensorsFileMetadata :=
  match files with
  | [] => none
  | (k, v) :: rest => if k = name then some v else lookupFile rest name

/-- Whether the weight-map entry `(tensor, filename)` is backed by an actual
tensor of that name in the parsed metadata of that file. -/
def entryBacked (files : List (String × SafetensorsFileMetadata)) (tf : String × String) : Bool :=
  match lookupFile files tf.2 with
  | some fm => fm.tensors.any (fun t => t.1 == tf.1)
  | none => false

/-- Modelled from the spec: the sharded branch of `get_repo_metadata`
(`get_safetensors_metadata`, whose implementation is not part of this
excerpt; only the dataclasses of `utils/_safetensors.py` are).  Per §4.2 the
index's `weight_map` is taken verbatim, every referenced file is parsed into
`files_metadata`, and the cross-check requires every tensor name of
`weight_map` to appear among the tensors parsed for the file it is assigned
to; a mismatch is surfaced as a malformed-repo error. -/
def get_repo_metadata_sharded (index_metadata : Option (List (String × String)))
    (weight_map : List (String × String))
    (files_metadata : List (String × SafetensorsFileMetadata)) :
    Except String SafetensorsRepoMetadata :=
  if weight_map.all (entryBacked files_metadata) then
    .ok ⟨index_metadata, true, weight_map, files_metadata⟩
  else
    .error "malformed repo: weight_map references a tensor missing from its file"

/-! ## String helpers -/

theorem string_eq_iff_data {a b : String} : a = b ↔ a.data = b.data :=
  ⟨congrArg String.data, fun h => by cases a; cases b; exact congrArg String.mk h⟩

theorem string_data_append (a b : String) : (a ++ b).data = a.data ++ b.data := rfl

theorem string_append_left_cancel {a b c : String} (h : a ++ b = a ++ c) : b = c := by
  have h2 : a.data ++ b.data = a.data ++ c.data := congrArg String.data h
  exact string_eq_iff_data.2 (List.append_cancel_left h2)

theorem pathJoin_inj_right {a x y : String} (h : pathJoin a x = pathJoin a y) : x = y := by
  have : (a ++ "/") ++ x = (a ++ "/") ++ y := by
    simpa [pathJoin, String.append_assoc] using h
  exact string_append_left_cancel this

theorem pathJoin_append (a x y : String) : pathJoin a x ++ y = pathJoin a (x ++ y) := by
  simp [pathJoin, String.append_assoc]

/-! ## Flattening lemmas -/

theorem goodRepo_tail {c : Char} {rest : List Char} (h : goodRepo (c :: rest) = true) :
    goodRepo rest = true := by
  cases rest with
  | nil => rfl
  | cons d r' =>
    simp only [goodRepo, Bool.and_eq_true] at h
    exact h.2

theorem goodAdj_head {c d : Char} {r' : List Char} (h : goodRepo (c :: d :: r') = true) :
    goodAdj c d = true := by
  simp only [goodRepo, Bool.and_eq_true] at h
  exact h.1

/-- On unambiguous repo ids, substituting `"__"` back for `"/"` undoes the
flattening. -/
theorem replaceSepBack_replaceSlash (x : List Char) (hx : goodRepo x = true) :
    replaceSepBack (replaceSlash x) = x := by
  induction x with
  | nil => rfl
  | cons c rest ih =>
    have hrest := goodRepo_tail hx
    by_cases hc : c = '/'
    · subst hc
      rw [show replaceSlash ('/' :: rest) = '_' :: '_' :: replaceSlash rest from by
        simp [replaceSlash]]
      rw [show replaceSepBack ('_' :: '_' :: replaceSlash rest)
            = '/' :: replaceSepBack (replaceSlash rest) from by
        simp [replaceSepBack]]
      rw [ih hrest]
    · cases rest with
      | nil => simp [replaceSlash, replaceSepBack, hc]
      | cons d r' =>
        have hadj : goodAdj c d = true := goodAdj_head hx
        obtain ⟨t, ht⟩ : ∃ t, replaceSlash (d :: r') = (if d = '/' then '_' else d) :: t := by
          by_cases hd : d = '/' <;> simp [replaceSlash, hd]
        have hcond : ¬(c = '_' ∧ (if d = '/' then '_' else d) = '_') := by
          rintro ⟨h1, h2⟩
          subst h1
          by_cases hd : d = '/'
          · simp [goodAdj, hd] at hadj
          · rw [if_neg hd] at h2
            subst h2
            simp [goodAdj] at hadj
        rw [show replaceSlash (c :: d :: r') = c :: replaceSlash (d :: r') from by
          simp [replaceSlash, hc]]
        rw [ht, replaceSepBack, if_neg hcond, ← ht, ih hrest]

theorem replaceSlash_injOn {x y : List Char} (hx : goodRepo x = true)
    (hy : goodRepo y = true) (h : replaceSlash x = replaceSlash y) : x = y := by
  have hxx := replaceSepBack_replaceSlash x hx
  rw [h, replaceSepBack_replaceSlash y hy] at hxx
  exact hxx.symm

/-! ## Glob matching lemmas -/

theorem globMatchAux_fuel_irrel :
    ∀ (n m : Nat) (p s : List Char), p.length + s.length < n → p.length + s.length < m →
      globMatchAux n p s = globMatchAux m p s := by
  intro n
  induction n with
  | zero => intro m p s hn _; omega
  | succ n ih =>
    intro m p s hn hm
    cases m with
    | zero => omega
    | succ m =>
      cases p with
      | nil => cases s <;> simp [globMatchAux]
      | cons a ps =>
        by_cases ha : a = '*'
        · subst ha
          cases s with
          | nil =>
            simp only [globMatchAux]
            exact ih m ps []
              (by simp only [List.length_cons, List.length_nil] at hn ⊢; omega)
              (by simp only [List.length_cons, List.length_nil] at hm ⊢; omega)
          | cons c cs =>
            simp only [globMatchAux]
            rw [ih m ps (c :: cs) (by simp at hn ⊢; omega) (by simp at hm ⊢; omega),
              ih m ('*' :: ps) cs (by simp at hn ⊢; omega) (by simp at hm ⊢; omega)]
        · cases s with
          | nil => simp [globMatchAux, ha]
          | cons c cs =>
            simp only [globMatchAux, ha, reduceIte]
            rw [ih m ps cs (by simp at hn ⊢; omega) (by simp at hm ⊢; omega)]

theorem globMatchAux_eq_globMatch {n : Nat} {p s : List Char}
    (h : p.length + s.length < n) :
    globMatchAux n p s = globMatch p s :=
  globMatchAux_fuel_irrel n (p.length + s.length + 1) p s h (by omega)

theorem globMatch_nil (s : List Char) : globMatch [] s = s.isEmpty := by
  cases s <;> rfl

theorem globMatch_star_nil (ps : List Char) : globMatch ('*' :: ps) [] = globMatch ps [] := by
  rw [show globMatch ('*' :: ps) [] = globMatchAux (ps.length + 1 + 1) ('*' :: ps) [] from by
    simp [globMatch]]
  rw [show globMatchAux (ps.length + 1 + 1) ('*' :: ps) [] = globMatchAux (ps.length + 1) ps []
    from rfl]
  exact globMatchAux_eq_globMatch (by simp only [List.length_nil]; omega)

theorem globMatch_star_cons (ps : List Char) (c : Char) (cs : List Char) :
    globMatch ('*' :: ps) (c :: cs) = (globMatch ps (c :: cs) || globMatch ('*' :: ps) cs) := by
  rw [show globMatch ('*' :: ps) (c :: cs)
      = globMatchAux (ps.length + cs.length + 2 + 1) ('*' :: ps) (c :: cs) from by
    simp [globMatch]; ring_nf]
  rw [show globMatchAux (ps.length + cs.length + 2 + 1) ('*' :: ps) (c :: cs)
      = (globMatchAux (ps.length + cs.length + 2) ps (c :: cs)
          || globMatchAux (ps.length + cs.length + 2) ('*' :: ps) cs) from rfl]
  rw [globMatchAux_eq_globMatch (by simp; omega),
    globMatchAux_eq_globMatch (by simp; omega)]

theorem globMatch_lit_nil (p : Char) (ps : List Char) (h : p ≠ '*') :
    globMatch (p :: ps) [] = false := by
  rw [show globMatch (p :: ps) [] = globMatchAux (ps.length + 1 + 1) (p :: ps) [] from by
    simp [globMatch]]
  simp [globMatchAux, h]

theorem globMatch_lit_cons (p : Char) (ps : List Char) (c : Char) (cs : List Char)
    (h : p ≠ '*') :
    globMatch (p :: ps) (c :: cs) = ((p == c) && globMatch ps cs) := by
  rw [show globMatch (p :: ps) (c :: cs)
      = globMatchAux (ps.length + cs.length + 2 + 1) (p :: ps) (c :: cs) from by
    simp [globMatch]; ring_nf]
  simp only [globMatchAux, h, reduceIte]
  rw [globMatchAux_eq_globMatch (by omega)]

theorem noStar_cons {a : Char} {l : List Char} (h : noStar (a :: l)) :
    a ≠ '*' ∧ noStar l :=
  ⟨h a (by simp), fun c hc => h c (by simp [hc])⟩

/-- A star-free pattern prefix must be matched literally. -/
theorem globMatch_lit_front {A : List Char} (hA : noStar A) (rest : List Char) :
    ∀ s : List Char, (globMatch (A ++ rest) s = true ↔
      ∃ t, s = A ++ t ∧ globMatch rest t = true) := by
  induction A with
  | nil => intro s; simp
  | cons a A' ih =>
    intro s
    obtain ⟨ha, hA'⟩ := noStar_cons hA
    cases s with
    | nil =>
      rw [List.cons_append, globMatch_lit_nil _ _ ha]
      simp
    | cons c cs =>
      rw [List.cons_append, globMatch_lit_cons _ _ _ _ ha]
      simp only [Bool.and_eq_true, beq_iff_eq]
      constructor
      · rintro ⟨rfl, h2⟩
        obtain ⟨t, rfl, ht⟩ := (ih hA' cs).1 h2
        exact ⟨t, rfl, ht⟩
      · rintro ⟨t, heq, ht⟩
        rw [List.cons_append] at heq
        injection heq with h1 h2
        exact ⟨h1.symm, (ih hA' cs).2 ⟨t, h2, ht⟩⟩

/-- A star-free pattern matches exactly itself. -/
theorem globMatch_lit {A : List Char} (hA : noStar A) (s : List Char) :
    globMatch A s = true ↔ s = A := by
  have := globMatch_lit_front hA [] s
  rw [List.append_nil] at this
  rw [this]
  constructor
  · rintro ⟨t, rfl, ht⟩
    rw [globMatch_nil] at ht
    simp at ht
    simp [ht]
  · rintro rfl
    exact ⟨[], by simp, rfl⟩

/-- A single trailing star matches any remainder. -/
theorem globMatch_star_any (s : List Char) : globMatch ['*'] s = true := by
  induction s with
  | nil => simp [globMatch_star_nil, globMatch_nil]
  | cons c cs ih => rw [globMatch_star_cons]; simp [ih]

/-- A pattern `*B` with `B` star-free matches exactly the strings ending in `B`. -/
theorem globMatch_star_lit {B : List Char} (hB : noStar B) :
    ∀ s : List Char, (globMatch ('*' :: B) s = true ↔ ∃ m, s = m ++ B) := by
  intro s
  induction s with
  | nil =>
    rw [globMatch_star_nil, globMatch_lit hB]
    constructor
    · rintro rfl; exact ⟨[], rfl⟩
    · rintro ⟨m, hm⟩
      rcases List.append_eq_nil.mp hm.symm with ⟨-, h2⟩
      exact h2.symm
  | cons c cs ih =>
    rw [globMatch_star_cons]
    simp only [Bool.or_eq_true]
    rw [globMatch_lit hB, ih]
    constructor
    · rintro (h | ⟨m, rfl⟩)
      · exact ⟨[], by simp [h]⟩
      · exact ⟨c :: m, rfl⟩
    · rintro ⟨m, hm⟩
      cases m with
      | nil => left; simpa using hm
      | cons d m' =>
        right
        rw [List.cons_append] at hm
        injection hm with h1 h2
        exact ⟨m', h2⟩

/-- A pattern `*B*` with `B` star-free matches exactly the strings containing `B`. -/
theorem globMatch_star_lit_star {B : List Char} (hB : noStar B) :
    ∀ s : List Char, (globMatch ('*' :: (B ++ ['*'])) s = true ↔ ∃ m n, s = m ++ B ++ n) := by
  intro s
  induction s with
  | nil =>
    rw [globMatch_star_nil, globMatch_lit_front hB]
    constructor
    · rintro ⟨t, ht, -⟩
      rcases List.append_eq_nil.mp ht.symm with ⟨h1, h2⟩
      exact ⟨[], [], by simp [h1, h2]⟩
    · rintro ⟨m, n, hmn⟩
      rcases List.append_eq_nil.mp hmn.symm with ⟨h1, h2⟩
      rcases List.append_eq_nil.mp h1 with ⟨h3, h4⟩
      exact ⟨[], by simp [h4], globMatch_star_any []⟩
  | cons c cs ih =>
    rw [globMatch_star_cons]
    simp only [Bool.or_eq_true]
    rw [globMatch_lit_front hB, ih]
    constructor
    · rintro (⟨t, ht, -⟩ | ⟨m, n, rfl⟩)
      · exact ⟨[], t, by simpa using ht⟩
      · exact ⟨c :: m, n, rfl⟩
    · rintro ⟨m, n, hmn⟩
      cases m with
      | nil =>
        left
        exact ⟨n, by simpa using hmn, globMatch_star_any n⟩
      | cons d m' =>
        right
        rw [List.cons_append, List.cons_append] at hmn
        injection hmn with h1 h2
        exact ⟨m', n, h2⟩

/-! ## The concrete patterns of the offline search -/

theorem data_dot : ("." : String).data = ['.'] := by decide

theorem data_dotstar : (".*" : String).data = ['.', '*'] := by decide

theorem data_dotstardot : (".*." : String).data = ['.', '*', '.'] := by decide

theorem data_dotstardotstar : (".*.*" : String).data = ['.', '*', '.', '*'] := by decide

theorem noStar_append {x y : List Char} (hx : noStar x) (hy : noStar y) : noStar (x ++ y) := by
  intro c hc
  rcases List.mem_append.mp hc with h | h
  · exact hx c h
  · exact hy c h

theorem noStar_dot_cons {l : List Char} (hl : noStar l) : noStar ('.' :: l) := by
  intro c hc
  rcases List.mem_cons.mp hc with rfl | h
  · decide
  · exact hl c h

theorem noStar_single_dot : noStar ['.'] := by
  intro c hc
  rcases List.mem_cons.mp hc with rfl | h
  · decide
  · simp at h

/-- Pattern `<flat>.<rev>.*` (line 80) matches exactly the names of shape
`<flat>.<rev>.<anything>`. -/
theorem matches_branch_iff {flat rev : String} (hflat : noStar flat.data)
    (hrev : noStar rev.data) (name : String) :
    globMatch (flat ++ "." ++ rev ++ ".*").data name.data = true ↔
      ∃ t : String, name = flat ++ "." ++ rev ++ "." ++ t := by
  have hA : noStar (flat.data ++ '.' :: (rev.data ++ ['.'])) :=
    noStar_append hflat (noStar_dot_cons (noStar_append hrev noStar_single_dot))
  have hpat : (flat ++ "." ++ rev ++ ".*").data
      = (flat.data ++ '.' :: (rev.data ++ ['.'])) ++ ['*'] := by
    simp [string_data_append, data_dot, data_dotstar]
  rw [hpat, globMatch_lit_front hA]
  constructor
  · rintro ⟨t, ht, -⟩
    refine ⟨⟨t⟩, string_eq_iff_data.2 ?_⟩
    simp only [string_data_append, data_dot]
    simpa using ht
  · rintro ⟨t, rfl⟩
    refine ⟨t.data, ?_, globMatch_star_any _⟩
    simp [string_data_append, data_dot]

/-- Pattern `<flat>.<rev>` (line 84) matches exactly the name `<flat>.<rev>`. -/
theorem matches_commit_only_iff {flat rev : String} (hflat : noStar flat.data)
    (hrev : noStar rev.data) (name : String) :
    globMatch (flat ++ "." ++ rev).data name.data = true ↔
      name = flat ++ "." ++ rev := by
  have hA : noStar (flat ++ "." ++ rev).data := by
    simp only [string_data_append, data_dot]
    exact noStar_append (noStar_append hflat noStar_single_dot) hrev
  rw [globMatch_lit hA]
  exact ⟨fun h => string_eq_iff_data.2 h, fun h => string_eq_iff_data.1 h⟩

/-- Pattern `<flat>.*.<rev>` (line 88) matches exactly the names of shape
`<flat>.<anything>.<rev>`. -/
theorem matches_branch_commit_iff {flat rev : String} (hflat : noStar flat.data)
    (hrev : noStar rev.data) (name : String) :
    globMatch (flat ++ ".*." ++ rev).data name.data = true ↔
      ∃ t : String, name = flat ++ "." ++ t ++ "." ++ rev := by
  have hA : noStar (flat.data ++ ['.']) := noStar_append hflat noStar_single_dot
  have hB : noStar ('.' :: rev.data) := noStar_dot_cons hrev
  have hpat : (flat ++ ".*." ++ rev).data
      = (flat.data ++ ['.']) ++ ('*' :: ('.' :: rev.data)) := by
    simp [string_data_append, data_dotstardot]
  rw [hpat, globMatch_lit_front hA]
  constructor
  · rintro ⟨t, ht, hmt⟩
    obtain ⟨m, rfl⟩ := (globMatch_star_lit hB t).1 hmt
    refine ⟨⟨m⟩, string_eq_iff_data.2 ?_⟩
    simp only [string_data_append, data_dot]
    simpa using ht
  · rintro ⟨t, rfl⟩
    refine ⟨t.data ++ '.' :: rev.data, ?_, ?_⟩
    · simp [string_data_append, data_dot]
    · exact (globMatch_star_lit hB _).2 ⟨t.data, rfl⟩

/-- Pattern `<flat>.*` (line 106) matches exactly the names of shape
`<flat>.<anything>`. -/
theorem matches_any_iff {flat : String} (hflat : noStar flat.data) (name : String) :
    globMatch (flat ++ ".*").data name.data = true ↔
      ∃ t : String, name = flat ++ "." ++ t := by
  have hA : noStar (flat.data ++ ['.']) := noStar_append hflat noStar_single_dot
  have hpat : (flat ++ ".*").data = (flat.data ++ ['.']) ++ ['*'] := by
    simp [string_data_append, data_dotstar]
  rw [hpat, globMatch_lit_front hA]
  constructor
  · rintro ⟨t, ht, -⟩
    refine ⟨⟨t⟩, string_eq_iff_data.2 ?_⟩
    simp only [string_data_append, data_dot]
    simpa using ht
  · rintro ⟨t, rfl⟩
    refine ⟨t.data, ?_, globMatch_star_any _⟩
    simp [string_data_append, data_dot]

/-- Pattern `<flat>.*.*` (line 107) matches exactly the names of shape
`<flat>.<anything>.<anything>`. -/
theorem matches_any_any_iff {flat : String} (hflat : noStar flat.data) (name : String) :
    globMatch (flat ++ ".*.*").data name.data = true ↔
      ∃ m n : String, name = flat ++ "." ++ m ++ "." ++ n := by
  have hA : noStar (flat.data ++ ['.']) := noStar_append hflat noStar_single_dot
  have hpat : (flat ++ ".*.*").data
      = (flat.data ++ ['.']) ++ ('*' :: (['.'] ++ ['*'])) := by
    simp [string_data_append, data_dotstardotstar]
  rw [hpat, globMatch_lit_front hA]
  constructor
  · rintro ⟨t, ht, hmt⟩
    obtain ⟨m, n, rfl⟩ := (globMatch_star_lit_star noStar_single_dot t).1 hmt
    refine ⟨⟨m⟩, ⟨n⟩, string_eq_iff_data.2 ?_⟩
    simp only [string_data_append, data_dot]
    simpa using ht
  · rintro ⟨m, n, rfl⟩
    refine ⟨m.data ++ '.' :: n.data, ?_, ?_⟩
    · simp [string_data_append, data_dot]
    · exact (globMatch_star_lit_star noStar_single_dot _).2 ⟨m.data, n.data, by simp⟩

/-! ## Offline candidate search lemmas -/

/-- The combined candidate list contains exactly the listed entries whose name
has one of the three allowed shapes. -/
theorem mem_repoFolders_iff {flat rev : String} (hflat : noStar flat.data)
    (hrev : noStar rev.data) (listing : List CacheEntry) (e : CacheEntry) :
    e ∈ repoFolders listing flat rev ↔ e ∈ listing ∧
      ((∃ t : String, e.name = flat ++ "." ++ rev ++ "." ++ t)
        ∨ e.name = flat ++ "." ++ rev
        ∨ (∃ t : String, e.name = flat ++ "." ++ t ++ "." ++ rev)) := by
  simp only [repoFolders, repoFoldersBranch, repoFoldersCommitOnly, repoFoldersBranchCommit,
    globFilter, List.mem_append, List.mem_filter,
    matches_branch_iff hflat hrev, matches_commit_only_iff hflat hrev,
    matches_branch_commit_iff hflat hrev]
  tauto

theorem maxByMtime_eq_none {l : List CacheEntry} : maxByMtime l = none ↔ l = [] := by
  cases l <;> simp [maxByMtime]

theorem foldl_max_mem (es : List CacheEntry) (e : CacheEntry) :
    es.foldl (fun acc x => if acc.mtime < x.mtime then x else acc) e = e
      ∨ es.foldl (fun acc x => if acc.mtime < x.mtime then x else acc) e ∈ es := by
  induction es generalizing e with
  | nil => left; rfl
  | cons x xs ih =>
    rcases ih (if e.mtime < x.mtime then x else e) with h | h
    · rw [List.foldl_cons, h]
      split
      · right; simp
      · left; rfl
    · right
      rw [List.foldl_cons]
      exact List.mem_cons_of_mem _ h

theorem foldl_max_ge_init (es : List CacheEntry) (e : CacheEntry) :
    e.mtime ≤ (es.foldl (fun acc x => if acc.mtime < x.mtime then x else acc) e).mtime := by
  induction es generalizing e with
  | nil => exact le_refl _
  | cons x xs ih =>
    rw [List.foldl_cons]
    refine le_trans ?_ (ih _)
    split
    · exact le_of_lt (by assumption)
    · exact le_refl _

theorem foldl_max_ge_mem (es : List CacheEntry) (e : CacheEntry) :
    ∀ x ∈ es, x.mtime ≤ (es.foldl (fun acc x => if acc.mtime < x.mtime then x else acc) e).mtime := by
  induction es generalizing e with
  | nil => intro x hx; simp at hx
  | cons y ys ih =>
    intro x hx
    rcases List.mem_cons.mp hx with rfl | hmem
    · rw [List.foldl_cons]
      refine le_trans ?_ (foldl_max_ge_init ys _)
      split
      · exact le_refl _
      · exact le_of_not_lt (by assumption)
    · rw [List.foldl_cons]
      exact ih _ x hmem

theorem maxByMtime_spec {l : List CacheEntry} {e : CacheEntry} (h : maxByMtime l = some e) :
    e ∈ l ∧ ∀ x ∈ l, x.mtime ≤ e.mtime := by
  cases l with
  | nil => simp [maxByMtime] at h
  | cons a as =>
    simp only [maxByMtime, Option.some.injEq] at h
    subst h
    constructor
    · rcases foldl_max_mem as a with h | h
      · rw [h]; simp
      · exact List.mem_cons_of_mem _ h
    · intro x hx
      rcases List.mem_cons.mp hx with rfl | hmem
      · exact foldl_max_ge_init as x
      · exact foldl_max_ge_mem as a x hmem

/-- When the candidate list is nonempty the offline search returns the path of
a most recently modified candidate. -/
theorem snapshot_offline_ok {listing : List CacheEntry} {cache_dir repo_id rev : String}
    (h : repoFolders listing (flattenRepoId repo_id) rev ≠ []) :
    ∃ e ∈ repoFolders listing (flattenRepoId repo_id) rev,
      snapshot_download_offline listing cache_dir repo_id rev = .ok (pathJoin cache_dir e.name)
        ∧ ∀ x ∈ repoFolders listing (flattenRepoId repo_id) rev, x.mtime ≤ e.mtime := by
  rcases he : maxByMtime (repoFolders listing (flattenRepoId repo_id) rev) with - | e
  · exact absurd (maxByMtime_eq_none.1 he) h
  · obtain ⟨hmem, hmax⟩ := maxByMtime_spec he
    exact ⟨e, hmem, by simp [snapshot_download_offline, he], hmax⟩

/-- When the candidate list is empty the offline search fails. -/
theorem snapshot_offline_error {listing : List CacheEntry} {cache_dir repo_id rev : String}
    (h : repoFolders listing (flattenRepoId repo_id) rev = []) :
    snapshot_download_offline listing cache_dir repo_id rev
      = .error "Cannot find the requested files in the cached path and outgoing traffic has been disabled." := by
  have : maxByMtime (repoFolders listing (flattenRepoId repo_id) rev) = none :=
    maxByMtime_eq_none.2 h
  simp [snapshot_download_offline, this]

theorem noMeta_noStar {l : List Char} (h : noMeta l) : noStar l :=
  fun c hc => (h c hc).1

theorem mem_replaceSlash {c : Char} {l : List Char} (hc : c ∈ replaceSlash l) :
    c ∈ l ∨ c = '_' := by
  induction l with
  | nil => simp [replaceSlash] at hc
  | cons a rest ih =>
    rw [replaceSlash] at hc
    split at hc
    · rcases List.mem_cons.mp hc with rfl | hc2
      · right; rfl
      · rcases List.mem_cons.mp hc2 with rfl | hc3
        · right; rfl
        · rcases ih hc3 with h | h
          · exact Or.inl (List.mem_cons_of_mem _ h)
          · exact Or.inr h
    · rcases List.mem_cons.mp hc with rfl | hc2
      · exact Or.inl (List.mem_cons_self _ _)
      · rcases ih hc2 with h | h
        · exact Or.inl (List.mem_cons_of_mem _ h)
        · exact Or.inr h

theorem noStar_flatten {repo_id : String} (h : noStar repo_id.data) :
    noStar (flattenRepoId repo_id).data := by
  intro c hc
  rcases mem_replaceSlash hc with hmem | rfl
  · exact h c hmem
  · decide

/-- A string contains a dot exactly when it splits at a dot. -/
theorem dot_split {t : String} : '.' ∈ t.data ↔ ∃ m n : String, t = m ++ "." ++ n := by
  constructor
  · intro h
    obtain ⟨s, r, hsr⟩ := List.append_of_mem h
    refine ⟨⟨s⟩, ⟨r⟩, string_eq_iff_data.2 ?_⟩
    simp [string_data_append, data_dot, hsr]
  · rintro ⟨m, n, rfl⟩
    simp [string_data_append, data_dot]

/-- Lines 106-108: the commit-any set contains exactly the listed entries whose
name is the flattened id followed by a single dot-free segment. -/
theorem mem_repoFoldersCommitAny_iff {flat : String} (hflat : noStar flat.data)
    (listing : List CacheEntry) (e : CacheEntry) :
    e ∈ repoFoldersCommitAny listing flat ↔ e ∈ listing ∧
      ∃ t : String, e.name = flat ++ "." ++ t ∧ '.' ∉ t.data := by
  rw [repoFoldersCommitAny, List.mem_filter]
  simp only [Bool.and_eq_true, Bool.not_eq_true']
  constructor
  · rintro ⟨hmem, hone, htwo⟩
    obtain ⟨t, ht⟩ := (matches_any_iff hflat e.name).1 hone
    refine ⟨hmem, t, ht, fun hdot => ?_⟩
    obtain ⟨m, n, rfl⟩ := dot_split.1 hdot
    have heq : e.name = flat ++ "." ++ m ++ "." ++ n := by
      rw [ht]; simp [String.append_assoc]
    have htrue : globMatch (flat ++ ".*.*").data e.name.data = true :=
      (matches_any_any_iff hflat e.name).2 ⟨m, n, heq⟩
    rw [htrue] at htwo
    exact absurd htwo (by simp)
  · rintro ⟨hmem, t, ht, hnd⟩
    refine ⟨hmem, (matches_any_iff hflat e.name).2 ⟨t, ht⟩, ?_⟩
    rw [Bool.eq_false_iff]
    intro htwo
    obtain ⟨m, n, hmn⟩ := (matches_any_any_iff hflat e.name).1 htwo
    have : t = m ++ "." ++ n := by
      apply string_append_left_cancel (a := flat ++ ".")
      rw [ht] at hmn
      calc (flat ++ ".") ++ t = flat ++ "." ++ t := rfl
        _ = flat ++ "." ++ m ++ "." ++ n := hmn
        _ = (flat ++ ".") ++ (m ++ "." ++ n) := by simp [String.append_assoc]
    exact hnd (dot_split.2 ⟨m, n, this⟩)

/-- Lines 109-119: the warning fires exactly when a commit-only-named folder
for the flattened id exists while neither commit-shaped pattern matched. -/
theorem warnEmitted_iff {flat rev : String} (hflat : noStar flat.data)
    (hrev : noStar rev.data) (listing : List CacheEntry) :
    warnEmitted listing flat rev = true ↔
      (∃ e ∈ listing, ∃ t : String, e.name = flat ++ "." ++ t ∧ '.' ∉ t.data)
      ∧ ¬(∃ e ∈ listing, e.name = flat ++ "." ++ rev
            ∨ ∃ t : String, e.name = flat ++ "." ++ t ++ "." ++ rev) := by
  rw [warnEmitted]
  simp only [Bool.and_eq_true, Bool.not_eq_true', List.isEmpty_iff, Bool.eq_false_iff,
    Ne, ← List.isEmpty_iff]
  rw [List.isEmpty_iff, List.isEmpty_iff]
  constructor
  · rintro ⟨hany, hnone⟩
    constructor
    · rcases List.exists_mem_of_ne_nil _ hany with ⟨e, he⟩
      obtain ⟨hmem, t, ht⟩ := (mem_repoFoldersCommitAny_iff hflat listing e).1 he
      exact ⟨e, hmem, t, ht⟩
    · rintro ⟨e, hmem, hshape⟩
      have : e ∈ repoFoldersCommitOnly listing flat rev ++ repoFoldersBranchCommit listing flat rev := by
        rcases hshape with h | ⟨t, ht⟩
        · exact List.mem_append.2 (Or.inl
            (List.mem_filter.2 ⟨hmem, (matches_commit_only_iff hflat hrev e.name).2 h⟩))
        · exact List.mem_append.2 (Or.inr
            (List.mem_filter.2 ⟨hmem, (matches_branch_commit_iff hflat hrev e.name).2 ⟨t, ht⟩⟩))
      rw [hnone] at this
      simp at this
  · rintro ⟨⟨e, hmem, t, ht⟩, hnone⟩
    constructor
    · intro hnil
      have : e ∈ repoFoldersCommitAny listing flat :=
        (mem_repoFoldersCommitAny_iff hflat listing e).2 ⟨hmem, t, ht⟩
      rw [hnil] at this
      simp at this
    · rw [List.eq_nil_iff_forall_not_mem]
      intro x hx
      rcases List.mem_append.mp hx with h | h
      · obtain ⟨hmemx, hmatch⟩ := List.mem_filter.mp h
        exact hnone ⟨x, hmemx, Or.inl ((matches_commit_only_iff hflat hrev x.name).1 hmatch)⟩
      · obtain ⟨hmemx, hmatch⟩ := List.mem_filter.mp h
        exact hnone ⟨x, hmemx,
          Or.inr ((matches_branch_commit_iff hflat hrev x.name).1 hmatch)⟩

/-! ## Filesystem lemmas -/

theorem fsLookup_fsRemove_ne {fs : FS} {p q : String} (h : q ≠ p) :
    fsLookup (fsRemove fs p) q = fsLookup fs q := by
  induction fs with
  | nil => rfl
  | cons e rest ih =>
    obtain ⟨k, v⟩ := e
    rw [fsRemove, fsLookup]
    by_cases hk : k = p
    · rw [if_pos hk, ih, if_neg (by rw [hk]; exact fun he => h he.symm)]
    · rw [if_neg hk, fsLookup]
      by_cases hq : k = q
      · rw [if_pos hq, if_pos hq]
      · rw [if_neg hq, if_neg hq, ih]

theorem fsLookup_fsRemove_self (fs : FS) (p : String) :
    fsLookup (fsRemove fs p) p = none := by
  induction fs with
  | nil => rfl
  | cons e rest ih =>
    obtain ⟨k, v⟩ := e
    rw [fsRemove]
    by_cases hk : k = p
    · rw [if_pos hk]; exact ih
    · rw [if_neg hk, fsLookup, if_neg hk]; exact ih

theorem fsLookup_fsSet_self (fs : FS) (p : String) (v : Nat) :
    fsLookup (fsSet fs p v) p = some v := by
  rw [fsSet, fsLookup, if_pos rfl]

theorem fsLookup_fsSet_ne {fs : FS} {p q : String} (v : Nat) (h : q ≠ p) :
    fsLookup (fsSet fs p v) q = fsLookup fs q := by
  rw [fsSet, fsLookup, if_neg (fun he => h he.symm)]
  exact fsLookup_fsRemove_ne h

theorem fsExists_iff {fs : FS} {p : String} :
    fsExists fs p = true ↔ ∃ v, fsLookup fs p = some v := by
  rw [fsExists, Option.isSome_iff_exists]

/-! ## Lock cleanup lemmas -/

theorem removeLock_lookup_ne {fs : FS} {path q : String} (h : q ≠ path ++ ".lock") :
    fsLookup (removeLockIfExists fs path) q = fsLookup fs q := by
  rw [removeLockIfExists]
  split
  · exact fsLookup_fsRemove_ne h
  · rfl

theorem removeLock_exists_ne {fs : FS} {path q : String} (h : q ≠ path ++ ".lock") :
    fsExists (removeLockIfExists fs path) q = fsExists fs q := by
  rw [fsExists, removeLock_lookup_ne h, fsExists]

theorem removeLock_removed (fs : FS) (path : String) :
    fsExists (removeLockIfExists fs path) (path ++ ".lock") = false := by
  rw [removeLockIfExists]
  split
  · simp [fsExists, fsLookup_fsRemove_self]
  · simpa using Bool.eq_false_iff.2 (by assumption)

theorem lockCleanup_total (fs : FS) (path : String) :
    lockCleanup fs path = .ok (removeLockIfExists fs path) := by
  rw [lockCleanup, removeLockIfExists]
  split
  · rw [os_remove, if_pos (by assumption)]
  · rfl

/-! ## Downloader lemmas (about the spec-modelled `cached_download`) -/

theorem cached_download_path (fs : FS) (remote : String → Nat) (cd ff : String) :
    (cached_download fs remote cd ff).2.1 = pathJoin cd ff := by
  rw [cached_download]; split <;> rfl

theorem cached_download_exists (fs : FS) (remote : String → Nat) (cd ff : String) :
    fsExists (cached_download fs remote cd ff).1 (pathJoin cd ff) = true := by
  rw [cached_download]
  split
  · assumption
  · simp [fsExists, fsLookup_fsSet_self]

theorem cached_download_present_skip {fs : FS} {remote : String → Nat} {cd ff : String}
    (h : fsExists fs (pathJoin cd ff) = true) :
    cached_download fs remote cd ff = (fs, pathJoin cd ff, false) := by
  rw [cached_download, if_pos h]

theorem cached_download_preserves {fs : FS} {remote : String → Nat} {cd ff q : String}
    {v : Nat} (h : fsLookup fs q = some v) :
    fsLookup (cached_download fs remote cd ff).1 q = some v := by
  rw [cached_download]
  split
  · exact h
  · rename_i hne
    by_cases hq : q = pathJoin cd ff
    · subst hq
      exact absurd (fsExists_iff.2 ⟨v, h⟩) (by simpa using hne)
    · rw [fsLookup_fsSet_ne _ hq]; exact h

theorem cached_download_lookup_ne {fs : FS} {remote : String → Nat} {cd ff q : String}
    (h : q ≠ pathJoin cd ff) :
    fsLookup (cached_download fs remote cd ff).1 q = fsLookup fs q := by
  rw [cached_download]
  split
  · rfl
  · exact fsLookup_fsSet_ne _ h

/-! ## Fetch loop lemmas -/

theorem fetchLoop_nil (remote : String → Nat) (sf : String) (fs : FS) :
    fetchLoop remote sf fs [] = (fs, 0) := rfl

theorem fetchLoop_cons (remote : String → Nat) (sf : String) (fs : FS) (f : String)
    (rest : List String) :
    fetchLoop remote sf fs (f :: rest) =
      ((fetchLoop remote sf
          (removeLockIfExists (cached_download fs remote sf f).1
            (cached_download fs remote sf f).2.1) rest).1,
        (if (cached_download fs remote sf f).2.2 then 1 else 0) +
          (fetchLoop remote sf
            (removeLockIfExists (cached_download fs remote sf f).1
              (cached_download fs remote sf f).2.1) rest).2) := rfl

theorem pathJoin_lock {sf g : String} :
    pathJoin sf g ++ ".lock" = pathJoin sf (g ++ ".lock") := pathJoin_append sf g ".lock"

theorem pathJoin_ne_lock {sf f g : String} (h : f ≠ g ++ ".lock") :
    pathJoin sf f ≠ pathJoin sf g ++ ".lock" := by
  rw [pathJoin_lock]
  intro he
  exact h (pathJoin_inj_right he)

/-- Paths neither downloaded nor lock-cleaned by the loop keep their lookup. -/
theorem fetchLoop_lookup_frame (remote : String → Nat) (sf : String) (files : List String) :
    ∀ (fs : FS) (q : String),
      (∀ g ∈ files, q ≠ pathJoin sf g ++ ".lock") →
      (∀ g ∈ files, q ≠ pathJoin sf g) →
      fsLookup (fetchLoop remote sf fs files).1 q = fsLookup fs q := by
  induction files with
  | nil => intro fs q _ _; rfl
  | cons f rest ih =>
    intro fs q hlock hfile
    rw [fetchLoop_cons]
    dsimp only
    rw [ih _ q (fun g hg => hlock g (List.mem_cons_of_mem _ hg))
        (fun g hg => hfile g (List.mem_cons_of_mem _ hg))]
    rw [cached_download_path]
    rw [removeLock_lookup_ne (hlock f (List.mem_cons_self _ _))]
    exact cached_download_lookup_ne (hfile f (List.mem_cons_self _ _))

/-- Files present before the loop stay present, provided their path is not a
lock artifact of one of the loop's files. -/
theorem fetchLoop_preserves_present (remote : String → Nat) (sf : String)
    (files : List String) :
    ∀ (fs : FS) (q : String) (v : Nat),
      (∀ g ∈ files, q ≠ pathJoin sf g ++ ".lock") →
      fsLookup fs q = some v →
      fsLookup (fetchLoop remote sf fs files).1 q = some v := by
  induction files with
  | nil => intro fs q v _ h; exact h
  | cons f rest ih =>
    intro fs q v hlock h
    rw [fetchLoop_cons]
    dsimp only
    refine ih _ q v (fun g hg => hlock g (List.mem_cons_of_mem _ hg)) ?_
    rw [cached_download_path,
      removeLock_lookup_ne (hlock f (List.mem_cons_self _ _))]
    exact cached_download_preserves h

/-- After the loop, every listed file is present — provided no listed file is
a lock artifact of another listed file. -/
theorem fetchLoop_makes_present (remote : String → Nat) (sf : String)
    (files : List String) :
    ∀ (fs : FS),
      (∀ f ∈ files, ∀ g ∈ files, f ≠ g ++ ".lock") →
      ∀ f ∈ files, fsExists (fetchLoop remote sf fs files).1 (pathJoin sf f) = true := by
  induction files with
  | nil => intro fs _ f hf; simp at hf
  | cons a rest ih =>
    intro fs hsep f hf
    rcases List.mem_cons.mp hf with rfl | hfrest
    · rw [fetchLoop_cons]
      dsimp only
      have hpres2 : fsExists
          (removeLockIfExists (cached_download fs remote sf f).1
            (cached_download fs remote sf f).2.1) (pathJoin sf f) = true := by
        rw [cached_download_path,
          removeLock_exists_ne (pathJoin_ne_lock (hsep f hf f hf))]
        exact cached_download_exists fs remote sf f
      obtain ⟨v, hv⟩ := fsExists_iff.1 hpres2
      refine fsExists_iff.2 ⟨v, ?_⟩
      exact fetchLoop_preserves_present remote sf rest _ _ v
        (fun g hg => pathJoin_ne_lock (hsep f hf g (List.mem_cons_of_mem _ hg))) hv
    · rw [fetchLoop_cons]
      dsimp only
      exact ih _ (fun x hx g hg =>
        hsep x (List.mem_cons_of_mem _ hx) g (List.mem_cons_of_mem _ hg)) f hfrest

/-- If every listed file is already present (and no listed file is a lock
artifact of another), the loop performs zero fetches. -/
theorem fetchLoop_no_fetch (remote : String → Nat) (sf : String) (files : List String) :
    ∀ (fs : FS),
      (∀ f ∈ files, fsExists fs (pathJoin sf f) = true) →
      (∀ f ∈ files, ∀ g ∈ files, f ≠ g ++ ".lock") →
      (fetchLoop remote sf fs files).2 = 0 := by
  induction files with
  | nil => intro fs _ _; rfl
  | cons a rest ih =>
    intro fs hpres hsep
    rw [fetchLoop_cons]
    dsimp only
    rw [cached_download_present_skip (hpres a (List.mem_cons_self _ _))]
    dsimp only
    have hpres2 : ∀ f ∈ rest,
        fsExists (removeLockIfExists fs (pathJoin sf a)) (pathJoin sf f) = true := by
      intro f hf
      rw [removeLock_exists_ne (pathJoin_ne_lock
        (hsep f (List.mem_cons_of_mem _ hf) a (List.mem_cons_self _ _)))]
      exact hpres f (List.mem_cons_of_mem _ hf)
    rw [ih _ hpres2 (fun x hx g hg =>
      hsep x (List.mem_cons_of_mem _ hx) g (List.mem_cons_of_mem _ hg))]
    simp

/-! ## Claims -/

/-- C1: For every online snapshot call, the storage folder path is the cache
root joined with the flattened repo id, a dot, and the literal revision
string; and the suffix `"." ++ sha` of the resolved commit sha is appended if
and only if the resolved sha differs from the literal revision string. -/
theorem claim_C1 (fs : FS) (remote : String → Nat) (cache_dir repo_id revision : String)
    (info : ModelInfo) :
    (info.sha ≠ revision →
      (snapshot_download_online fs remote cache_dir repo_id revision info).1
        = cache_dir ++ "/" ++ flattenRepoId repo_id ++ "." ++ revision ++ "." ++ info.sha)
    ∧ (info.sha = revision →
      (snapshot_download_online fs remote cache_dir repo_id revision info).1
        = cache_dir ++ "/" ++ flattenRepoId repo_id ++ "." ++ revision) := by
  constructor
  · intro h
    simp [snapshot_download_online, storageFolderOnline, pathJoin, if_pos (Ne.symm h),
      String.append_assoc]
  · intro h
    simp [snapshot_download_online, storageFolderOnline, pathJoin, h, String.append_assoc]

theorem claim_C1_witness :
    (("s" : String) ≠ "main"
      ∧ (snapshot_download_online [] (fun _ => 0) "c" "a/b" "main" ⟨"s", []⟩).1
          = "c" ++ "/" ++ flattenRepoId "a/b" ++ "." ++ "main" ++ "." ++ "s")
    ∧ (snapshot_download_online [] (fun _ => 0) "c" "a/b" "s" ⟨"s", []⟩).1
        = "c" ++ "/" ++ flattenRepoId "a/b" ++ "." ++ "s" :=
  ⟨⟨by decide, (claim_C1 [] (fun _ => 0) "c" "a/b" "main" ⟨"s", []⟩).1 (by decide)⟩,
    (claim_C1 [] (fun _ => 0) "c" "a/b" "s" ⟨"s", []⟩).2 rfl⟩

/-- C4: For every symbolic revision (literal string differing from the
resolved sha), two online snapshot calls with the same repo_id and revision
but different resolved shas return different storage folder paths. -/
theorem claim_C4 (fs1 fs2 : FS) (remote1 remote2 : String → Nat)
    (cache_dir repo_id revision : String) (info1 info2 : ModelInfo)
    (h1 : revision ≠ info1.sha) (h2 : revision ≠ info2.sha)
    (hne : info1.sha ≠ info2.sha) :
    (snapshot_download_online fs1 remote1 cache_dir repo_id revision info1).1
      ≠ (snapshot_download_online fs2 remote2 cache_dir repo_id revision info2).1 := by
  simp only [snapshot_download_online, storageFolderOnline, if_pos h1, if_pos h2]
  intro heq
  exact hne (string_append_left_cancel
    (a := pathJoin cache_dir (flattenRepoId repo_id ++ "." ++ revision) ++ ".") heq)

theorem claim_C4_witness :
    ("main" : String) ≠ "s1" ∧ ("main" : String) ≠ "s2" ∧ ("s1" : String) ≠ "s2"
    ∧ (snapshot_download_online [] (fun _ => 0) "c" "a/b" "main" ⟨"s1", []⟩).1
        ≠ (snapshot_download_online [] (fun _ => 0) "c" "a/b" "main" ⟨"s2", []⟩).1 :=
  ⟨by decide, by decide, by decide,
    claim_C4 [] [] (fun _ => 0) (fun _ => 0) "c" "a/b" "main" ⟨"s1", []⟩ ⟨"s2", []⟩
      (by decide) (by decide) (by decide)⟩

/-- C7: For every file fetched by snapshot, after the per-file download
completes the lock artifact at the downloaded path plus ".lock" is removed if
it exists, and its absence does not cause an error: the guarded cleanup
always succeeds, its result never contains the lock path, and every other
path is untouched. -/
theorem claim_C7 (fs : FS) (path : String) :
    lockCleanup fs path = .ok (removeLockIfExists fs path)
    ∧ fsExists (removeLockIfExists fs path) (path ++ ".lock") = false
    ∧ ∀ q, q ≠ path ++ ".lock" →
        fsLookup (removeLockIfExists fs path) q = fsLookup fs q :=
  ⟨lockCleanup_total fs path, removeLock_removed fs path,
    fun _ hq => removeLock_lookup_ne hq⟩

theorem claim_C7_witness :
    lockCleanup [("p.lock", 1), ("x", 2)] "p"
        = .ok (removeLockIfExists [("p.lock", 1), ("x", 2)] "p")
    ∧ fsExists (removeLockIfExists [("p.lock", 1), ("x", 2)] "p") ("p" ++ ".lock") = false
    ∧ fsLookup (removeLockIfExists [("p.lock", 1), ("x", 2)] "p") "x"
        = fsLookup [("p.lock", 1), ("x", 2)] "x" :=
  ⟨(claim_C7 [("p.lock", 1), ("x", 2)] "p").1,
    (claim_C7 [("p.lock", 1), ("x", 2)] "p").2.1,
    (claim_C7 [("p.lock", 1), ("x", 2)] "p").2.2 "x" (by decide)⟩

/-- C10 counterexample: the repo ids "a_/b" and "a/_b" are distinct and
contain no occurrence of the reserved separator "__", yet they flatten to the
same token "a___b"; moreover replacing "__" back with "/" in that token
yields "a/_b", not "a_/b".  So the flattening is neither injective nor
invertible on separator-free repo ids, refuting the claim. -/
theorem claim_C10_counterexample :
    ("a_/b" : String) ≠ "a/_b"
    ∧ hasSubstr REPO_ID_SEPARATOR.data ("a_/b" : String).data = false
    ∧ hasSubstr REPO_ID_SEPARATOR.data ("a/_b" : String).data = false
    ∧ flattenRepoId "a_/b" = flattenRepoId "a/_b"
    ∧ String.mk (replaceSepBack (flattenRepoId "a_/b").data) ≠ "a_/b" := by
  refine ⟨by decide, by decide, by decide, by decide, by decide⟩

/-- C10 (amended): for repo ids in which no two adjacent characters form
"__" or "_/", the flattening (replacing every "/" with "__") is invertible —
replacing "__" back with "/" recovers the original repo id — and therefore
injective on such repo ids.  In particular ids containing "/_" (such as
"a/_b") are still covered. -/
theorem claim_C10_amended (x y : String) (hx : goodRepo x.data = true)
    (hy : goodRepo y.data = true) :
    String.mk (replaceSepBack (flattenRepoId x).data) = x
    ∧ (flattenRepoId x = flattenRepoId y → x = y) := by
  constructor
  · refine string_eq_iff_data.2 ?_
    simpa [flattenRepoId] using replaceSepBack_replaceSlash x.data hx
  · intro h
    have hdata : replaceSlash x.data = replaceSlash y.data := by
      simpa [flattenRepoId] using congrArg String.data h
    exact string_eq_iff_data.2 (replaceSlash_injOn hx hy hdata)

/-- C2: For every offline snapshot call, the candidate set is exactly the
cached folders whose name has one of the three shapes `<flat>.<rev>.*`,
`<flat>.<rev>`, or `<flat>.*.<rev>`; if this set is empty the call fails with
the not-found error before returning any path, and otherwise the returned
folder is a most recently modified candidate.  (The hypotheses restrict the
repo id and revision to strings without glob metacharacters, which is what
the embedding of Python `glob` models.) -/
theorem claim_C2 (listing : List CacheEntry) (cache_dir repo_id revision : String)
    (hrepo : noMeta repo_id.data) (hrev : noMeta revision.data) :
    (∀ e, e ∈ repoFolders listing (flattenRepoId repo_id) revision ↔
        e ∈ listing ∧
          ((∃ t : String, e.name = flattenRepoId repo_id ++ "." ++ revision ++ "." ++ t)
            ∨ e.name = flattenRepoId repo_id ++ "." ++ revision
            ∨ (∃ t : String, e.name = flattenRepoId repo_id ++ "." ++ t ++ "." ++ revision)))
    ∧ (repoFolders listing (flattenRepoId repo_id) revision = [] →
        snapshot_download_offline listing cache_dir repo_id revision
          = .error "Cannot find the requested files in the cached path and outgoing traffic has been disabled.")
    ∧ (repoFolders listing (flattenRepoId repo_id) revision ≠ [] →
        ∃ e ∈ repoFolders listing (flattenRepoId repo_id) revision,
          snapshot_download_offline listing cache_dir repo_id revision
            = .ok (pathJoin cache_dir e.name)
          ∧ ∀ x ∈ repoFolders listing (flattenRepoId repo_id) revision,
              x.mtime ≤ e.mtime) :=
  ⟨mem_repoFolders_iff (noStar_flatten (noMeta_noStar hrepo)) (noMeta_noStar hrev) listing,
    fun h => snapshot_offline_error h,
    fun h => snapshot_offline_ok h⟩

theorem claim_C2_witness :
    (∀ e, e ∈ repoFolders [⟨"a__b.main.s1", 1⟩] (flattenRepoId "a/b") "main" ↔
        e ∈ [(⟨"a__b.main.s1", 1⟩ : CacheEntry)] ∧
          ((∃ t : String, e.name = flattenRepoId "a/b" ++ "." ++ "main" ++ "." ++ t)
            ∨ e.name = flattenRepoId "a/b" ++ "." ++ "main"
            ∨ (∃ t : String, e.name = flattenRepoId "a/b" ++ "." ++ t ++ "." ++ "main")))
    ∧ (repoFolders [⟨"a__b.main.s1", 1⟩] (flattenRepoId "a/b") "main" = [] →
        snapshot_download_offline [⟨"a__b.main.s1", 1⟩] "c" "a/b" "main"
          = .error "Cannot find the requested files in the cached path and outgoing traffic has been disabled.")
    ∧ (repoFolders [⟨"a__b.main.s1", 1⟩] (flattenRepoId "a/b") "main" ≠ [] →
        ∃ e ∈ repoFolders [⟨"a__b.main.s1", 1⟩] (flattenRepoId "a/b") "main",
          snapshot_download_offline [⟨"a__b.main.s1", 1⟩] "c" "a/b" "main"
            = .ok (pathJoin "c" e.name)
          ∧ ∀ x ∈ repoFolders [⟨"a__b.main.s1", 1⟩] (flattenRepoId "a/b") "main",
              x.mtime ≤ e.mtime) :=
  claim_C2 [⟨"a__b.main.s1", 1⟩] "c" "a/b" "main" (by unfold noMeta; decide)
    (by unfold noMeta; decide)

/-- C3 counterexample: the code performs no repo-id validation.  With the
empty repo id (and likewise with a repo id containing the reserved separator
"__"), the offline call is not rejected: it searches the cache and returns a
cached folder, contradicting "rejected before any I/O". -/
theorem claim_C3_counterexample :
    snapshot_download_offline [⟨".main", 3⟩] "c" "" "main" = .ok "c/.main"
    ∧ hasSubstr REPO_ID_SEPARATOR.data ("x__y" : String).data = true
    ∧ snapshot_download_offline [⟨"x__y.main", 7⟩] "c" "x__y" "main" = .ok "c/x__y.main" :=
  ⟨rfl, by decide, rfl⟩

/-- C3 (amended): snapshot_download performs no client-side validation of the
repo id.  Even for an empty repo id or one containing the reserved separator,
the offline call proceeds with the cache-folder search and returns a folder
whenever the search finds a candidate. -/
theorem claim_C3_amended (listing : List CacheEntry) (cache_dir repo_id revision : String)
    (hinvalid : repo_id = "" ∨ hasSubstr REPO_ID_SEPARATOR.data repo_id.data = true)
    (hfound : repoFolders listing (flattenRepoId repo_id) revision ≠ []) :
    ∃ folder, snapshot_download_offline listing cache_dir repo_id revision = .ok folder := by
  obtain ⟨e, -, hok, -⟩ := snapshot_offline_ok hfound
  exact ⟨_, hok⟩

theorem claim_C3_amended_witness :
    ∃ folder, snapshot_download_offline [⟨".main", 3⟩] "c" "" "main" = .ok folder :=
  claim_C3_amended [⟨".main", 3⟩] "c" "" "main" (Or.inl rfl) (by decide)

/-- C6: In offline mode, the warning is emitted if and only if at least one
cached folder exists under a commit-only name (the flattened id followed by
exactly one dot-free segment) while neither commit-shaped pattern
(`<flat>.<rev>` or `<flat>.*.<rev>`) matched the requested revision; and the
warning never aborts the call, which still returns a folder whenever any of
the three candidate shapes matched. -/
theorem claim_C6 (listing : List CacheEntry) (cache_dir repo_id revision : String)
    (hrepo : noMeta repo_id.data) (hrev : noMeta revision.data) :
    (warnEmitted listing (flattenRepoId repo_id) revision = true ↔
      ((∃ e ∈ listing, ∃ t : String,
          e.name = flattenRepoId repo_id ++ "." ++ t ∧ '.' ∉ t.data)
        ∧ ¬(∃ e ∈ listing, e.name = flattenRepoId repo_id ++ "." ++ revision
              ∨ ∃ t : String,
                  e.name = flattenRepoId repo_id ++ "." ++ t ++ "." ++ revision)))
    ∧ (repoFolders listing (flattenRepoId repo_id) revision ≠ [] →
        ∃ folder, snapshot_download_offline listing cache_dir repo_id revision
          = .ok folder) := by
  refine ⟨warnEmitted_iff (noStar_flatten (noMeta_noStar hrepo)) (noMeta_noStar hrev)
    listing, fun h => ?_⟩
  obtain ⟨e, -, hok, -⟩ := snapshot_offline_ok h
  exact ⟨_, hok⟩

theorem claim_C6_witness :
    (warnEmitted [⟨"a__b.s2", 5⟩, ⟨"a__b.main.s1", 1⟩] (flattenRepoId "a/b") "main" = true ↔
      ((∃ e ∈ [(⟨"a__b.s2", 5⟩ : CacheEntry), ⟨"a__b.main.s1", 1⟩], ∃ t : String,
          e.name = flattenRepoId "a/b" ++ "." ++ t ∧ '.' ∉ t.data)
        ∧ ¬(∃ e ∈ [(⟨"a__b.s2", 5⟩ : CacheEntry), ⟨"a__b.main.s1", 1⟩],
              e.name = flattenRepoId "a/b" ++ "." ++ "main"
              ∨ ∃ t : String,
                  e.name = flattenRepoId "a/b" ++ "." ++ t ++ "." ++ "main")))
    ∧ ∃ folder, snapshot_download_offline [⟨"a__b.s2", 5⟩, ⟨"a__b.main.s1", 1⟩]
        "c" "a/b" "main" = .ok folder :=
  ⟨(claim_C6 [⟨"a__b.s2", 5⟩, ⟨"a__b.main.s1", 1⟩] "c" "a/b" "main"
      (by unfold noMeta; decide) (by unfold noMeta; decide)).1,
    (claim_C6 [⟨"a__b.s2", 5⟩, ⟨"a__b.main.s1", 1⟩] "c" "a/b" "main"
      (by unfold noMeta; decide) (by unfold noMeta; decide)).2 (by decide)⟩

/-- C5 counterexample: take a repo whose resolved file list is
`["a", "a.lock"]`.  After a first online snapshot call both files are cached.
A second identical call (same repo id, revision and resolved sha) still
performs one fetch: processing `"a"` deletes the cached repo file `"a.lock"`
(the per-file lock cleanup mistakes it for a lock artifact), so `"a.lock"`
— although present when the second call started — is downloaded again.
Hence the second call does not perform zero redundant fetches for files
already present. -/
theorem claim_C5_counterexample :
    fsExists (snapshot_download_online [] (fun _ => 0) "c" "r" "s"
        ⟨"s", ["a", "a.lock"]⟩).2.1 (pathJoin "c/r.s" "a") = true
    ∧ fsExists (snapshot_download_online [] (fun _ => 0) "c" "r" "s"
        ⟨"s", ["a", "a.lock"]⟩).2.1 (pathJoin "c/r.s" "a.lock") = true
    ∧ (snapshot_download_online
        (snapshot_download_online [] (fun _ => 0) "c" "r" "s"
          ⟨"s", ["a", "a.lock"]⟩).2.1
        (fun _ => 0) "c" "r" "s" ⟨"s", ["a", "a.lock"]⟩).2.2 = 1 :=
  ⟨rfl, rfl, rfl⟩

/-- C5 (amended): for online calls, provided no listed file path equals
another listed file path extended with ".lock", calling snapshot twice in a
row with an unchanged resolved sha yields the same storage folder path both
times and the second call performs zero fetches (in particular zero redundant
fetches for files already present). -/
theorem claim_C5_amended (fs : FS) (remote : String → Nat)
    (cache_dir repo_id revision : String) (info : ModelInfo)
    (hsep : ∀ f ∈ info.siblings, ∀ g ∈ info.siblings, f ≠ g ++ ".lock") :
    (snapshot_download_online
        (snapshot_download_online fs remote cache_dir repo_id revision info).2.1
        remote cache_dir repo_id revision info).1
      = (snapshot_download_online fs remote cache_dir repo_id revision info).1
    ∧ (snapshot_download_online
        (snapshot_download_online fs remote cache_dir repo_id revision info).2.1
        remote cache_dir repo_id revision info).2.2 = 0 := by
  constructor
  · rfl
  · exact fetchLoop_no_fetch remote
      (storageFolderOnline cache_dir repo_id revision info.sha) info.siblings _
      (fetchLoop_makes_present remote
        (storageFolderOnline cache_dir repo_id revision info.sha) info.siblings fs hsep)
      hsep

theorem claim_C5_amended_witness :
    (snapshot_download_online
        (snapshot_download_online [] (fun _ => 0) "c" "r" "main" ⟨"s", ["a", "b"]⟩).2.1
        (fun _ => 0) "c" "r" "main" ⟨"s", ["a", "b"]⟩).1
      = (snapshot_download_online [] (fun _ => 0) "c" "r" "main" ⟨"s", ["a", "b"]⟩).1
    ∧ (snapshot_download_online
        (snapshot_download_online [] (fun _ => 0) "c" "r" "main" ⟨"s", ["a", "b"]⟩).2.1
        (fun _ => 0) "c" "r" "main" ⟨"s", ["a", "b"]⟩).2.2 = 0 :=
  claim_C5_amended [] (fun _ => 0) "c" "r" "main" ⟨"s", ["a", "b"]⟩ (by decide)

/-- C8: For every online snapshot call, no pre-existing cached file other
than a ".lock" artifact of a downloaded path is ever deleted (first
conjunct: any path that is not such a lock artifact keeps its content if it
was present), and files not part of the resolved revision remain unchanged
(second conjunct). -/
theorem claim_C8 (fs : FS) (remote : String → Nat)
    (cache_dir repo_id revision : String) (info : ModelInfo) (q : String)
    (hnotlock : ∀ g ∈ info.siblings,
      q ≠ pathJoin (storageFolderOnline cache_dir repo_id revision info.sha) g ++ ".lock") :
    (∀ v, fsLookup fs q = some v →
      fsLookup (snapshot_download_online fs remote cache_dir repo_id revision info).2.1 q
        = some v)
    ∧ ((∀ g ∈ info.siblings,
          q ≠ pathJoin (storageFolderOnline cache_dir repo_id revision info.sha) g) →
        fsLookup (snapshot_download_online fs remote cache_dir repo_id revision info).2.1 q
          = fsLookup fs q) := by
  constructor
  · intro v hv
    exact fetchLoop_preserves_present remote
      (storageFolderOnline cache_dir repo_id revision info.sha) info.siblings fs q v
      hnotlock hv
  · intro hnotfile
    exact fetchLoop_lookup_frame remote
      (storageFolderOnline cache_dir repo_id revision info.sha) info.siblings fs q
      hnotlock hnotfile

theorem claim_C8_witness :
    (∀ v, fsLookup [("c/other", 9)] "c/other" = some v →
      fsLookup (snapshot_download_online [("c/other", 9)] (fun _ => 0) "c" "r" "s"
          ⟨"s", ["a"]⟩).2.1 "c/other" = some v)
    ∧ ((∀ g ∈ ["a"],
          ("c/other" : String) ≠ pathJoin (storageFolderOnline "c" "r" "s" "s") g) →
        fsLookup (snapshot_download_online [("c/other", 9)] (fun _ => 0) "c" "r" "s"
            ⟨"s", ["a"]⟩).2.1 "c/other" = fsLookup [("c/other", 9)] "c/other") :=
  claim_C8 [("c/other", 9)] (fun _ => 0) "c" "r" "s" ⟨"s", ["a"]⟩ "c/other" (by decide)

/-- C9: For every sharded repository, `get_repo_metadata` fails with a
malformed-repo error whenever some tensor name in the index's weight_map is
absent from the tensors of the file metadata parsed for the file the
weight_map assigns it to; it never returns a `SafetensorsRepoMetadata`
containing such a dangling reference. -/
theorem claim_C9 (index_metadata : Option (List (String × String)))
    (weight_map : List (String × String))
    (files_metadata : List (String × SafetensorsFileMetadata))
    (t f : String) (fm : SafetensorsFileMetadata)
    (hmem : (t, f) ∈ weight_map)
    (hfile : lookupFile files_metadata f = some fm)
    (hdangling : ∀ p ∈ fm.tensors, p.1 ≠ t) :
    (∃ e, get_repo_metadata_sharded index_metadata weight_map files_metadata = .error e)
    ∧ ∀ m, get_repo_metadata_sharded index_metadata weight_map files_metadata ≠ .ok m := by
  have hback : entryBacked files_metadata (t, f) = false := by
    unfold entryBacked
    dsimp only
    rw [hfile]
    rw [List.any_eq_false]
    intro p hp
    simpa using hdangling p hp
  have hall : ¬(weight_map.all (entryBacked files_metadata) = true) := by
    rw [List.all_eq_true]
    intro h
    rw [h (t, f) hmem] at hback
    exact absurd hback (by simp)
  rw [get_repo_metadata_sharded, if_neg hall]
  exact ⟨⟨_, rfl⟩, fun m h => Except.noConfusion h⟩

theorem claim_C9_witness :
    (("w1", "shard0.safetensors") ∈ [(("w1", "shard0.safetensors"))]
      ∧ lookupFile [("shard0.safetensors",
          (⟨[], [("w2", ⟨"F32", [2, 3], (0, 24)⟩)]⟩ : SafetensorsFileMetadata))]
          "shard0.safetensors"
        = some (⟨[], [("w2", ⟨"F32", [2, 3], (0, 24)⟩)]⟩ : SafetensorsFileMetadata))
    ∧ (∃ e, get_repo_metadata_sharded none [("w1", "shard0.safetensors")]
        [("shard0.safetensors",
          (⟨[], [("w2", ⟨"F32", [2, 3], (0, 24)⟩)]⟩ : SafetensorsFileMetadata))]
        = .error e)
    ∧ ∀ m, get_repo_metadata_sharded none [("w1", "shard0.safetensors")]
        [("shard0.safetensors",
          (⟨[], [("w2", ⟨"F32", [2, 3], (0, 24)⟩)]⟩ : SafetensorsFileMetadata))]
        ≠ .ok m :=
  ⟨⟨by decide, by decide⟩,
    (claim_C9 none [("w1", "shard0.safetensors")]
      [("shard0.safetensors", ⟨[], [("w2", ⟨"F32", [2, 3], (0, 24)⟩)]⟩)]
      "w1" "shard0.safetensors" ⟨[], [("w2", ⟨"F32", [2, 3], (0, 24)⟩)]⟩
      (by decide) (by decide) (by decide)).1,
    (claim_C9 none [("w1", "shard0.safetensors")]
      [("shard0.safetensors", ⟨[], [("w2", ⟨"F32", [2, 3], (0, 24)⟩)]⟩)]
      "w1" "shard0.safetensors" ⟨[], [("w2", ⟨"F32", [2, 3], (0, 24)⟩)]⟩
      (by decide) (by decide) (by decide)).2⟩

theorem claim_C10_amended_witness :
    goodRepo ("a/_b" : String).data = true
    ∧ goodRepo ("e/f" : String).data = true
    ∧ String.mk (replaceSepBack (flattenRepoId "a/_b").data) = "a/_b"
    ∧ (flattenRepoId "a/_b" = flattenRepoId "e/f" → ("a/_b" : String) = "e/f") :=
  ⟨by decide, by decide,
    (claim_C10_amended "a/_b" "e/f" (by decide) (by decide)).1,
    (claim_C10_amended "a/_b" "e/f" (by decide) (by decide)).2⟩

end HFHub
